import Mathlib

/-!
Verification of the enumeration-area (EA) generation pipeline in
`ea_processor.py`.

The pipeline's geometric values (shapely polygons / multipolygons) are
modelled as finite unions of closed axis-aligned rectangles with rational
coordinates (`Geom` below).  On this sub-universe every geometric operation
the source code performs is computed exactly:
* `areaG` is the exact area of the union (grid-sweep over the rectangle
  coordinates),
* `boundsG` is the exact bounding box,
* `clipG` is the exact intersection with an axis-aligned quadrant,
* `subsetG` decides set containment of one rectangle union in another
  (shapely's `within` predicate), exact for non-degenerate rectangles,
* `containsG` decides interior point membership (shapely's `contains` on a
  point), modelled as membership in the interior of some rectangle.

Operations performed by external libraries on data the model does not
inspect (the overlay union of boundary layers, the overlay intersection of
population cells with a boundary layer, and the pairwise geometry union in
the merge loop, which may raise on invalid topology) are passed in as
function parameters; the fallible union returns `Option`.

Python floats are modelled as exact rationals; machine rounding is outside
the scope of the claims.  Numeric literals such as `0.3` and `1e6` from the
source are the exact rationals `3/10` and `1000000`.
-/

/-- A closed axis-aligned rectangle `[minx, maxx] × [miny, maxy]` with
rational coordinates.  It is empty when `maxx < minx` or `maxy < miny`. -/
structure Rect where
  minx : ℚ
  miny : ℚ
  maxx : ℚ
  maxy : ℚ
deriving DecidableEq, Repr

/-- A geometry: a finite union of closed axis-aligned rectangles. -/
abbrev Geom := List Rect

/-- Whether a single rectangle is empty. -/
def Rect.isEmptyR (r : Rect) : Bool :=
  decide (r.maxx < r.minx) || decide (r.maxy < r.miny)

/-- Drop the empty rectangles of a geometry. -/
def normG (g : Geom) : Geom := g.filter (fun r => !r.isEmptyR)

/-- Closed membership of a point in a rectangle. -/
def Rect.memB (r : Rect) (x y : ℚ) : Bool :=
  decide (r.minx ≤ x) && decide (x ≤ r.maxx) &&
  decide (r.miny ≤ y) && decide (y ≤ r.maxy)

/-- Strict (interior) membership of a point in a rectangle. -/
def Rect.memIntB (r : Rect) (x y : ℚ) : Bool :=
  decide (r.minx < x) && decide (x < r.maxx) &&
  decide (r.miny < y) && decide (y < r.maxy)

/-- Closed membership of a point in a geometry. -/
def inG (g : Geom) (x y : ℚ) : Bool := g.any fun r => r.memB x y

/-- The point set denoted by a rectangle. -/
def Rect.toSetR (r : Rect) : Set (ℚ × ℚ) :=
  {p | r.minx ≤ p.1 ∧ p.1 ≤ r.maxx ∧ r.miny ≤ p.2 ∧ p.2 ≤ r.maxy}

/-- The point set denoted by a geometry. -/
def toSetG (g : Geom) : Set (ℚ × ℚ) := {p | ∃ r ∈ g, p ∈ r.toSetR}

/-- Shapely `is_empty`: the geometry denotes the empty point set. -/
def isEmptyG (g : Geom) : Bool := (normG g).isEmpty

/-- Shapely `geometry.contains(point)`: the point lies in the interior.
Modelled as interior membership in some rectangle of the union. -/
def containsG (g : Geom) (p : ℚ × ℚ) : Bool := g.any fun r => r.memIntB p.1 p.2

/-- The x-coordinates occurring among the non-empty rectangles. -/
def coordsX (g : Geom) : List ℚ :=
  (normG g).foldr (fun r acc => r.minx :: r.maxx :: acc) []

/-- The y-coordinates occurring among the non-empty rectangles. -/
def coordsY (g : Geom) : List ℚ :=
  (normG g).foldr (fun r acc => r.miny :: r.maxy :: acc) []

/-- Sort a coordinate list and remove duplicates. -/
def sortDedup (l : List ℚ) : List ℚ := (List.insertionSort (· ≤ ·) l).dedup

/-- Consecutive pairs of a list. -/
def pairs : List ℚ → List (ℚ × ℚ)
  | a :: b :: rest => (a, b) :: pairs (b :: rest)
  | _ => []

/-- Shapely `geometry.area`: exact area of the rectangle union, computed by
sweeping the grid induced by all rectangle coordinates and summing the grid
cells whose midpoint lies in the union. -/
def areaG (g : Geom) : ℚ :=
  let xs := sortDedup (coordsX g)
  let ys := sortDedup (coordsY g)
  ((pairs xs).map (fun px =>
    ((pairs ys).map (fun py =>
      if inG g ((px.1 + px.2) / 2) ((py.1 + py.2) / 2) then
        (px.2 - px.1) * (py.2 - py.1)
      else 0)).sum)).sum

/-- Shapely `geometry.bounds` as `(minx, miny, maxx, maxy)`; `(0,0,0,0)` for
an empty geometry. -/
def boundsG (g : Geom) : ℚ × ℚ × ℚ × ℚ :=
  match sortDedup (coordsX g), sortDedup (coordsY g) with
  | x1 :: xs, y1 :: ys => (x1, y1, xs.getLastD x1, ys.getLastD y1)
  | _, _ => (0, 0, 0, 0)

/-- Centroid of (the polygon of) a rectangle. -/
def Rect.centerR (r : Rect) : ℚ × ℚ :=
  ((r.minx + r.maxx) / 2, (r.miny + r.maxy) / 2)

/-- Intersection of two rectangles. -/
def interR (q r : Rect) : Rect :=
  ⟨max q.minx r.minx, max q.miny r.miny, min q.maxx r.maxx, min q.maxy r.maxy⟩

/-- Shapely `quad.intersection(geometry)` for an axis-aligned quadrant:
intersect every rectangle of the union with the quadrant. -/
def clipG (q : Rect) (g : Geom) : Geom :=
  (g.map (interR q)).filter (fun r => !r.isEmptyR)

/-- Decide `toSetG a ⊆ toSetG b` by sweeping the grid induced by the
coordinates of both geometries: every grid cell whose midpoint lies in `a`
must lie in `b`.  Exact when the rectangles of `a` are non-degenerate. -/
def subsetG (a b : Geom) : Bool :=
  let xs := sortDedup (coordsX (a ++ b))
  let ys := sortDedup (coordsY (a ++ b))
  (pairs xs).all fun px => (pairs ys).all fun py =>
    !inG a ((px.1 + px.2) / 2) ((py.1 + py.2) / 2) ||
      inG b ((px.1 + px.2) / 2) ((py.1 + py.2) / 2)

/-- Shapely `a.within(b)`. -/
def withinG (a b : Geom) : Bool := !isEmptyG a && subsetG a b

/-- A row of the GeoDataFrame returned by `rasterize_population`:
geometry plus population (source lines 40-45). -/
structure PopCell where
  geometry : Geom
  population : ℚ
deriving DecidableEq, Repr

/-- A row of the units GeoDataFrame entering `merge_units`: geometry,
population and `area_km2` (source lines 50-57). -/
structure AUnit where
  geometry : Geom
  population : ℚ
  area_km2 : ℚ
deriving DecidableEq, Repr

/-- A record of the final EA collection.  `merge_units` builds its records
as `{'geometry': ..., 'population': ..., 'area_km2': ...}` (source lines
112 and 130) and `generate_eas` appends records with the same three keys
(source line 161); no other field is ever attached. -/
structure EA where
  geometry : Geom
  population : ℚ
  area_km2 : ℚ
deriving DecidableEq, Repr

/-- The keys of every record dict appended to the output collection, read
off the dict literals at source lines 112, 130 and 161. -/
def merged_record_fields : List String := ["geometry", "population", "area_km2"]

/-- `rasterize_population` (source lines 31-47).  The output of
`rasterio.features.shapes` is the input list of geometry/value pairs; the
function keeps the pairs with `value > 0` as population cells. -/
def rasterize_population (shapes : List (Geom × ℚ)) : List PopCell :=
  shapes.filterMap fun gv => if gv.2 > 0 then some ⟨gv.1, gv.2⟩ else none

/-- `load_boundaries` (source lines 10-28).  The three optional layers are
the already-loaded geometries; `ovU` is the external
`gpd.overlay(..., how='union')` operation folded over the remaining
layers. -/
def load_boundaries (ovU : Geom → Geom → Geom)
    (roads rivers settlements : Option Geom) : Option Geom :=
  let bs := roads.toList ++ rivers.toList ++ settlements.toList
  match bs with
  | [] => none
  | b :: rest => some (rest.foldl ovU b)

/-- `split_by_boundaries` (source lines 50-57).  With no boundary layer the
population cells pass through with an `area_km2` column assigned; otherwise
the external `gpd.overlay(..., how='intersection')` operation `ovI`
produces the fragments, whose `area_km2` is then computed. -/
def split_by_boundaries (ovI : List PopCell → Geom → List PopCell)
    (pop : List PopCell) (boundary : Option Geom) : List AUnit :=
  match boundary with
  | none => pop.map fun c => ⟨c.geometry, c.population, areaG c.geometry / 1000000⟩
  | some b => (ovI pop b).map fun c =>
      ⟨c.geometry, c.population, areaG c.geometry / 1000000⟩

/-- The mutable state of the `merge_units` loop: `current_geom`
(`none` models Python's `None`), `current_pop`, `current_area`, and the
`merged` output list. -/
structure MState where
  geom : Option Geom
  pop : ℚ
  area : ℚ
  out : List EA
deriving DecidableEq, Repr

/-- First half of a `merge_units` loop iteration (source lines 108-115):
when adding the row would exceed a cap and the accumulator geometry is
truthy, emit the accumulator and reset. -/
def emitPhase (maxP maxA : ℚ) (s : MState) (row : AUnit) : MState :=
  if s.pop + row.population > maxP ∨ s.area + row.area_km2 > maxA then
    match s.geom with
    | some g =>
        if isEmptyG g then s
        else ⟨none, 0, 0, s.out ++ [⟨g, s.pop, s.area⟩]⟩
    | none => s
  else s

/-- Second half of a `merge_units` loop iteration (source lines 117-127):
seed an empty accumulator from the row, otherwise attempt the geometry
union `u` (which may raise, modelled by `none`); on failure the row is
skipped, on success its population and area are added. -/
def addPhase (u : Geom → Geom → Option Geom) (s : MState) (row : AUnit) : MState :=
  match s.geom with
  | none => ⟨some row.geometry, row.population, row.area_km2, s.out⟩
  | some g =>
    match u g row.geometry with
    | none => s
    | some g2 => ⟨some g2, s.pop + row.population, s.area + row.area_km2, s.out⟩

/-- One full iteration of the `merge_units` loop. -/
def mergeStep (u : Geom → Geom → Option Geom) (maxP maxA : ℚ)
    (s : MState) (row : AUnit) : MState :=
  addPhase u (emitPhase maxP maxA s row) row

/-- The final flush of `merge_units` (source lines 129-130). -/
def mergeFinal (s : MState) : List EA :=
  match s.geom with
  | some g => if isEmptyG g then s.out else s.out ++ [⟨g, s.pop, s.area⟩]
  | none => s.out

/-- `merge_units` (source lines 100-132), with the fallible external
geometry union `u` as a parameter. -/
def merge_units (u : Geom → Geom → Option Geom) (units : List AUnit)
    (maxP maxA : ℚ) : List EA :=
  mergeFinal (units.foldl (mergeStep u maxP maxA) ⟨none, 0, 0, []⟩)

/-- If the emit phase leaves the accumulator geometry present, it changed
nothing at all. -/
theorem emitPhase_eq_of_geom_some (maxP maxA : ℚ) (s : MState) (row : AUnit)
    (g : Geom) (h : (emitPhase maxP maxA s row).geom = some g) :
    emitPhase maxP maxA s row = s := by
  unfold emitPhase at h ⊢
  by_cases hc : s.pop + row.population > maxP ∨ s.area + row.area_km2 > maxA
  · simp only [if_pos hc] at h ⊢
    cases hs : s.geom with
    | none => simp [hs]
    | some g' =>
        simp only [hs] at h ⊢
        by_cases hemp : isEmptyG g'
        · simp [hemp]
        · simp [hemp] at h
  · simp [if_neg hc]

/-- C6: in `merge_units`, whenever the geometry union between the
accumulator and a candidate unit fails (raises), the candidate's
contribution is dropped: the whole loop state — accumulator geometry,
population, area, and the list of emitted EAs — is exactly the same after
processing that unit as before, so the candidate's population and area are
added to no EA. -/
theorem mergeStep_union_failure_frame (u : Geom → Geom → Option Geom)
    (maxP maxA : ℚ) (s : MState) (row : AUnit) (g : Geom)
    (hg : (emitPhase maxP maxA s row).geom = some g)
    (hu : u g row.geometry = none) :
    mergeStep u maxP maxA s row = s := by
  have he := emitPhase_eq_of_geom_some maxP maxA s row g hg
  rw [he] at hg
  simp only [mergeStep, he, addPhase, hg, hu]

/-- Witness for C6: a concrete loop state and candidate whose union fails;
the state is unchanged. -/
theorem mergeStep_union_failure_frame_witness :
    mergeStep (fun _ _ => none) 750 9
      ⟨some [⟨0, 0, 1, 1⟩], 10, 1, []⟩ ⟨[⟨2, 2, 3, 3⟩], 5, 1⟩
      = ⟨some [⟨0, 0, 1, 1⟩], 10, 1, []⟩ :=
  mergeStep_union_failure_frame (fun _ _ => none) 750 9
    ⟨some [⟨0, 0, 1, 1⟩], 10, 1, []⟩ ⟨[⟨2, 2, 3, 3⟩], 5, 1⟩
    [⟨0, 0, 1, 1⟩] (by norm_num [emitPhase]) rfl

/-- C10: `merge_units` applied to an empty sequence of units returns the
empty EA collection: the final flush emits nothing when no unit was ever
accumulated. -/
theorem merge_units_nil (u : Geom → Geom → Option Geom) (maxP maxA : ℚ) :
    merge_units u [] maxP maxA = [] := rfl

/-- C7: when no boundary layer is supplied, `split_by_boundaries` returns
units whose geometries and populations equal those of the input population
cells exactly, with only an `area_km2` field added (computed from the
geometry). -/
theorem split_by_boundaries_none (ovI : List PopCell → Geom → List PopCell)
    (pop : List PopCell) :
    (split_by_boundaries ovI pop none).map (fun un => un.geometry)
        = pop.map (fun c => c.geometry)
    ∧ (split_by_boundaries ovI pop none).map (fun un => un.population)
        = pop.map (fun c => c.population)
    ∧ split_by_boundaries ovI pop none
        = pop.map (fun c => ⟨c.geometry, c.population, areaG c.geometry / 1000000⟩) := by
  refine ⟨?_, ?_, rfl⟩ <;> simp [split_by_boundaries]

/-- C8: every population cell produced by `rasterize_population` has
population strictly greater than 0: raster regions whose value is ≤ 0
yield no output cell. -/
theorem rasterize_population_pos (shapes : List (Geom × ℚ)) (c : PopCell)
    (hc : c ∈ rasterize_population shapes) : 0 < c.population := by
  unfold rasterize_population at hc
  rw [List.mem_filterMap] at hc
  obtain ⟨gv, _, hgv⟩ := hc
  by_cases h : gv.2 > 0
  · simp [h] at hgv
    rw [← hgv]
    exact h
  · simp [h] at hgv

/-- Witness for C8: a concrete cell of a concrete rasterization has
positive population. -/
theorem rasterize_population_pos_witness : 0 < (5 : ℚ) :=
  rasterize_population_pos [([⟨0, 0, 1, 1⟩], 5)] ⟨[⟨0, 0, 1, 1⟩], 5⟩
    (by simp [rasterize_population])

/-- C3 (code evidence): a unit whose own population exceeds `max_pop` is
emitted by `merge_units` as a singleton EA, but the emitted record carries
no `oversize` field at all — the record keys are exactly `geometry`,
`population` and `area_km2`.  This is the input of §8 Scenario 2 of the
spec (population 1000 > max_pop 750), on which the spec requires
`oversize=true`. -/
theorem merge_units_oversize_unmarked :
    merge_units (fun a b => some (a ++ b)) [⟨[⟨0, 0, 3000, 3000⟩], 1000, 5⟩] 750 9
      = [⟨[⟨0, 0, 3000, 3000⟩], 1000, 5⟩]
    ∧ (1000 : ℚ) > 750
    ∧ ¬ ("oversize" ∈ merged_record_fields) := by
  refine ⟨?_, by norm_num, by decide⟩
  norm_num [merge_units, mergeFinal, mergeStep, addPhase, emitPhase,
    isEmptyG, normG, Rect.isEmptyR]

/-- The population the code assigns to a clipped quadrant (source lines
89-90 and 160): the sum of the populations of every cell whose geometry
lies `within` the quadrant. -/
def quadPopW (clip : Geom) (cells : List PopCell) : ℚ :=
  ((cells.filter fun c => withinG c.geometry clip).map fun c => c.population).sum

/-- Centroid of a geometry: area-weighted average of the grid-cell
midpoints of the sweep (exact for unions of non-degenerate rectangles);
`(0, 0)` when the area is zero. -/
def centroidG (g : Geom) : ℚ × ℚ :=
  let xs := sortDedup (coordsX g)
  let ys := sortDedup (coordsY g)
  let wx := ((pairs xs).map (fun px =>
    ((pairs ys).map (fun py =>
      if inG g ((px.1 + px.2) / 2) ((py.1 + py.2) / 2) then
        (px.2 - px.1) * (py.2 - py.1) * ((px.1 + px.2) / 2)
      else 0)).sum)).sum
  let wy := ((pairs xs).map (fun px =>
    ((pairs ys).map (fun py =>
      if inG g ((px.1 + px.2) / 2) ((py.1 + py.2) / 2) then
        (px.2 - px.1) * (py.2 - py.1) * ((py.1 + py.2) / 2)
      else 0)).sum)).sum
  if areaG g = 0 then (0, 0) else (wx / areaG g, wy / areaG g)

/-- Modelled from the spec: the quadrant population as §4.5 describes it,
"summing every PopulationCell whose centroid falls inside it".  This
definition follows the spec's words (centroid membership), for comparison
with `quadPopW`, which is what the code computes. -/
def quadPopCentroid (clip : Geom) (cells : List PopCell) : ℚ :=
  ((cells.filter fun c => containsG clip (centroidG c.geometry)).map
    fun c => c.population).sum

/-- The four bounding-box quadrants built at source lines 74-79, as
`(q1, q2, q3, q4)`. -/
def quadsOf (g : Geom) : Rect × Rect × Rect × Rect :=
  let b := boundsG g
  let minx := b.1
  let miny := b.2.1
  let maxx := b.2.2.1
  let maxy := b.2.2.2
  let hw := (maxx - minx) / 2
  let hh := (maxy - miny) / 2
  (⟨minx, miny, minx + hw, miny + hh⟩,
   ⟨minx + hw, miny, maxx, miny + hh⟩,
   ⟨minx, miny + hh, minx + hw, maxy⟩,
   ⟨minx + hw, miny + hh, maxx, maxy⟩)

/-- Processing of one quadrant of the loop at source lines 81-95, with the
recursive call abstracted as `qrec`: skip a quadrant whose centroid is not
contained in the geometry, clip it, skip it if empty, recurse when the
population or area cap is exceeded, otherwise keep the clipped quadrant as
a leaf. -/
def quadBranch (g : Geom) (maxA maxP : ℚ) (cells : List PopCell)
    (qrec : Geom → Option (List Geom)) (q : Rect) : Option (List Geom) :=
  if !containsG g q.centerR then some []
  else
    let c := clipG q g
    if isEmptyG c then some []
    else if quadPopW c cells > maxP ∨ areaG c / 1000000 > maxA then qrec c
    else some [c]

/-- `quadtree_split` (source lines 60-97) with explicit recursion fuel:
the source recursion has no depth floor, so a run that would recurse
beyond the supplied fuel is modelled as `none` (non-termination). -/
def quadtree_split : ℕ → Geom → ℚ → ℚ → List PopCell → Option (List Geom)
  | 0 => fun _ _ _ _ => none
  | n + 1 => fun g maxA maxP cells =>
    if areaG g / 1000000 ≤ maxA then some [g]
    else
      let qs := quadsOf g
      (quadBranch g maxA maxP cells (fun c => quadtree_split n c maxA maxP cells) qs.1).bind fun l1 =>
      (quadBranch g maxA maxP cells (fun c => quadtree_split n c maxA maxP cells) qs.2.1).bind fun l2 =>
      (quadBranch g maxA maxP cells (fun c => quadtree_split n c maxA maxP cells) qs.2.2.1).bind fun l3 =>
      (quadBranch g maxA maxP cells (fun c => quadtree_split n c maxA maxP cells) qs.2.2.2).bind fun l4 =>
      some (l1 ++ l2 ++ l3 ++ l4)

/-- The loop over EAs at source lines 155-161 collecting `sparse_areas`:
for each sparse EA run the quadtree and append one record per leaf, with
population recomputed by the `within` sum of line 160. -/
def sparseLoop (fuel : ℕ) (pop : List PopCell) (maxP maxA : ℚ) :
    List EA → List EA → Option (List EA)
  | acc, [] => some acc
  | acc, ea :: rest =>
    if ea.population < maxP * (3 / 10) ∨ ea.area_km2 < maxA * (3 / 10) then
      match quadtree_split fuel ea.geometry maxA maxP pop with
      | none => none
      | some quads =>
          sparseLoop fuel pop maxP maxA
            (acc ++ quads.map fun q => ⟨q, quadPopW q pop, areaG q / 1000000⟩) rest
    else sparseLoop fuel pop maxP maxA acc rest

/-- `generate_eas` (source lines 135-166).  External inputs and library
operations are parameters: `u` is the fallible pairwise geometry union of
the merge loop, `ovU` the overlay union of `load_boundaries`, `ovI` the
overlay intersection of `split_by_boundaries`, `admin` the loaded admin
boundary (read at line 140 and never used afterwards), and `shapes` the
raster regions.  The result is `none` when the run does not return a
collection: either a quadtree call recurses beyond `fuel`, or
`sparse_areas` is non-empty — in that case line 165 evaluates `pd.concat`,
and `pd` (pandas) is never imported in `ea_processor.py`, so the run
raises `NameError`. -/
def generate_eas (fuel : ℕ) (u : Geom → Geom → Option Geom)
    (ovU : Geom → Geom → Geom) (ovI : List PopCell → Geom → List PopCell)
    (_admin : Geom) (shapes : List (Geom × ℚ)) (maxP maxA : ℚ)
    (roads rivers settlements : Option Geom) : Option (List EA) :=
  let pop := rasterize_population shapes
  let boundary := load_boundaries ovU roads rivers settlements
  let units := split_by_boundaries ovI pop boundary
  let eas := merge_units u units maxP maxA
  match sparseLoop fuel pop maxP maxA [] eas with
  | none => none
  | some sparse => if sparse.isEmpty then some eas else none

/-- Total population of an EA collection. -/
def sumPopEA (l : List EA) : ℚ := (l.map fun ea => ea.population).sum

/-- Total population of a unit list. -/
def sumPopU (l : List AUnit) : ℚ := (l.map fun un => un.population).sum

/-- Total population of a cell list. -/
def sumPopC (l : List PopCell) : ℚ := (l.map fun c => c.population).sum

/-- A unit that individually respects both caps and has non-empty
geometry. -/
def capsP (maxP maxA : ℚ) (un : AUnit) : Prop :=
  un.population ≤ maxP ∧ un.area_km2 ≤ maxA ∧ isEmptyG un.geometry = false

/-- Invariant of the merge loop: every emitted EA respects both caps, and
a live accumulator respects both caps and is non-empty. -/
def capsInv (maxP maxA : ℚ) (s : MState) : Prop :=
  (∀ ea ∈ s.out, ea.population ≤ maxP ∧ ea.area_km2 ≤ maxA) ∧
  (∀ g, s.geom = some g → s.pop ≤ maxP ∧ s.area ≤ maxA ∧ isEmptyG g = false)

/-- One merge iteration preserves `capsInv` when the incoming unit
respects both caps and the union preserves non-emptiness. -/
theorem mergeStep_caps (u : Geom → Geom → Option Geom) (maxP maxA : ℚ)
    (hu : ∀ a b g2, isEmptyG a = false → u a b = some g2 → isEmptyG g2 = false)
    (s : MState) (row : AUnit) (hs : capsInv maxP maxA s)
    (hrow : capsP maxP maxA row) :
    capsInv maxP maxA (mergeStep u maxP maxA s row) := by
  obtain ⟨hout, hacc⟩ := hs
  obtain ⟨hrp, hra, hrg⟩ := hrow
  by_cases hc : s.pop + row.population > maxP ∨ s.area + row.area_km2 > maxA
  · cases hgeom : s.geom with
    | none =>
        have hstep : mergeStep u maxP maxA s row
            = ⟨some row.geometry, row.population, row.area_km2, s.out⟩ := by
          simp [mergeStep, emitPhase, addPhase, hc, hgeom]
        rw [hstep]
        exact ⟨hout, by intro g hg; injection hg with hg; subst hg; exact ⟨hrp, hra, hrg⟩⟩
    | some g =>
        obtain ⟨hp, ha, hne⟩ := hacc g hgeom
        have hstep : mergeStep u maxP maxA s row
            = ⟨some row.geometry, row.population, row.area_km2,
               s.out ++ [⟨g, s.pop, s.area⟩]⟩ := by
          simp [mergeStep, emitPhase, addPhase, hc, hgeom, hne]
        rw [hstep]
        refine ⟨?_, by intro g2 hg2; injection hg2 with hg2; subst hg2; exact ⟨hrp, hra, hrg⟩⟩
        intro ea hea
        rcases List.mem_append.mp hea with h | h
        · exact hout ea h
        · rcases List.mem_singleton.mp h with rfl
          exact ⟨hp, ha⟩
  · cases hgeom : s.geom with
    | none =>
        have hstep : mergeStep u maxP maxA s row
            = ⟨some row.geometry, row.population, row.area_km2, s.out⟩ := by
          simp [mergeStep, emitPhase, addPhase, hc, hgeom]
        rw [hstep]
        exact ⟨hout, by intro g hg; injection hg with hg; subst hg; exact ⟨hrp, hra, hrg⟩⟩
    | some g =>
        obtain ⟨hp, ha, hne⟩ := hacc g hgeom
        have hc2 := hc
        push_neg at hc2
        cases huv : u g row.geometry with
        | none =>
            have hstep : mergeStep u maxP maxA s row = s := by
              simp [mergeStep, emitPhase, addPhase, hc, hgeom, huv]
            rw [hstep]
            exact ⟨hout, hacc⟩
        | some g2 =>
            have hstep : mergeStep u maxP maxA s row
                = ⟨some g2, s.pop + row.population, s.area + row.area_km2, s.out⟩ := by
              simp [mergeStep, emitPhase, addPhase, hc, hgeom, huv]
            rw [hstep]
            refine ⟨hout, ?_⟩
            intro g3 hg3
            injection hg3 with hg3; subst hg3
            exact ⟨hc2.1, hc2.2, hu g row.geometry g2 hne huv⟩

/-- The merge fold preserves `capsInv`. -/
theorem mergeFold_caps (u : Geom → Geom → Option Geom) (maxP maxA : ℚ)
    (hu : ∀ a b g2, isEmptyG a = false → u a b = some g2 → isEmptyG g2 = false) :
    ∀ (units : List AUnit) (s : MState), capsInv maxP maxA s →
      (∀ un ∈ units, capsP maxP maxA un) →
      capsInv maxP maxA (units.foldl (mergeStep u maxP maxA) s) := by
  intro units
  induction units with
  | nil => intro s hs _; simpa using hs
  | cons a l ih =>
      intro s hs hun
      rw [List.foldl_cons]
      exact ih _ (mergeStep_caps u maxP maxA hu s a hs (hun a (by simp)))
        (fun x hx => hun x (by simp [hx]))

/-- Cap satisfaction for `merge_units`: when every input unit individually
respects both caps (and geometries are non-empty, unions preserving
non-emptiness), every emitted EA respects both caps. -/
theorem merge_units_caps (u : Geom → Geom → Option Geom) (units : List AUnit)
    (maxP maxA : ℚ)
    (hu : ∀ a b g2, isEmptyG a = false → u a b = some g2 → isEmptyG g2 = false)
    (hunits : ∀ un ∈ units, capsP maxP maxA un) :
    ∀ ea ∈ merge_units u units maxP maxA,
      ea.population ≤ maxP ∧ ea.area_km2 ≤ maxA := by
  have h := mergeFold_caps u maxP maxA hu units ⟨none, 0, 0, []⟩
    ⟨by simp, by simp⟩ hunits
  obtain ⟨hout, hacc⟩ := h
  unfold merge_units mergeFinal
  cases hg : (units.foldl (mergeStep u maxP maxA) ⟨none, 0, 0, []⟩).geom with
  | none => exact hout
  | some g =>
      obtain ⟨hp, ha, hne⟩ := hacc g hg
      simp only [hne, Bool.false_eq_true, if_false]
      intro ea hea
      rcases List.mem_append.mp hea with h | h
      · exact hout ea h
      · rcases List.mem_singleton.mp h with rfl
        exact ⟨hp, ha⟩

/-- State invariant of the merge loop used for mass accounting: an absent
accumulator has zero population, a live accumulator is non-empty. -/
def stInv (s : MState) : Prop :=
  (s.geom = none → s.pop = 0) ∧ (∀ g, s.geom = some g → isEmptyG g = false)

/-- Appending a geometry to a non-empty geometry is non-empty (the exact
union preserves points). -/
theorem isEmptyG_append_false (a b : Geom) (ha : isEmptyG a = false) :
    isEmptyG (a ++ b) = false := by
  simp only [isEmptyG, normG, List.filter_append] at ha ⊢
  cases h : List.filter (fun r => !r.isEmptyR) a with
  | nil => rw [h] at ha; simp at ha
  | cons x xs => simp

/-- Total population distributes over append. -/
theorem sumPopEA_append (l1 l2 : List EA) :
    sumPopEA (l1 ++ l2) = sumPopEA l1 + sumPopEA l2 := by
  simp [sumPopEA]

/-- One merge iteration conserves population mass when the union never
fails: the emitted-plus-accumulated mass grows by exactly the row's
population. -/
theorem mergeStep_mass (u : Geom → Geom → Option Geom) (maxP maxA : ℚ)
    (hu1 : ∀ a b, ∃ g2, u a b = some g2)
    (hu2 : ∀ a b g2, isEmptyG a = false → u a b = some g2 → isEmptyG g2 = false)
    (s : MState) (row : AUnit) (hrow : isEmptyG row.geometry = false)
    (hs : stInv s) :
    stInv (mergeStep u maxP maxA s row) ∧
    sumPopEA (mergeStep u maxP maxA s row).out + (mergeStep u maxP maxA s row).pop
      = sumPopEA s.out + s.pop + row.population := by
  obtain ⟨hz, hne⟩ := hs
  by_cases hc : s.pop + row.population > maxP ∨ s.area + row.area_km2 > maxA
  · cases hgeom : s.geom with
    | none =>
        have hstep : mergeStep u maxP maxA s row
            = ⟨some row.geometry, row.population, row.area_km2, s.out⟩ := by
          simp [mergeStep, emitPhase, addPhase, hc, hgeom]
        rw [hstep]
        refine ⟨⟨by simp, ?_⟩, ?_⟩
        · intro g hg; injection hg with hg; subst hg; exact hrow
        · have := hz hgeom
          simp [this]
    | some g =>
        have hg := hne g hgeom
        have hstep : mergeStep u maxP maxA s row
            = ⟨some row.geometry, row.population, row.area_km2,
               s.out ++ [⟨g, s.pop, s.area⟩]⟩ := by
          simp [mergeStep, emitPhase, addPhase, hc, hgeom, hg]
        rw [hstep]
        refine ⟨⟨by simp, ?_⟩, ?_⟩
        · intro g2 hg2; injection hg2 with hg2; subst hg2; exact hrow
        · rw [sumPopEA_append]
          simp only [sumPopEA, List.map_cons, List.map_nil, List.sum_cons,
            List.sum_nil, add_zero]
  · cases hgeom : s.geom with
    | none =>
        have hstep : mergeStep u maxP maxA s row
            = ⟨some row.geometry, row.population, row.area_km2, s.out⟩ := by
          simp [mergeStep, emitPhase, addPhase, hc, hgeom]
        rw [hstep]
        refine ⟨⟨by simp, ?_⟩, ?_⟩
        · intro g hg; injection hg with hg; subst hg; exact hrow
        · have := hz hgeom
          simp [this]
    | some g =>
        have hg := hne g hgeom
        obtain ⟨g2, hg2⟩ := hu1 g row.geometry
        have hstep : mergeStep u maxP maxA s row
            = ⟨some g2, s.pop + row.population, s.area + row.area_km2, s.out⟩ := by
          simp [mergeStep, emitPhase, addPhase, hc, hgeom, hg2]
        rw [hstep]
        refine ⟨⟨by simp, ?_⟩, by ring⟩
        intro g3 hg3; injection hg3 with hg3; subst hg3
        exact hu2 g row.geometry g2 hg hg2

/-- The merge fold conserves population mass when the union never fails. -/
theorem mergeFold_mass (u : Geom → Geom → Option Geom) (maxP maxA : ℚ)
    (hu1 : ∀ a b, ∃ g2, u a b = some g2)
    (hu2 : ∀ a b g2, isEmptyG a = false → u a b = some g2 → isEmptyG g2 = false) :
    ∀ (units : List AUnit) (s : MState), stInv s →
      (∀ un ∈ units, isEmptyG un.geometry = false) →
      stInv (units.foldl (mergeStep u maxP maxA) s) ∧
      sumPopEA (units.foldl (mergeStep u maxP maxA) s).out
          + (units.foldl (mergeStep u maxP maxA) s).pop
        = sumPopEA s.out + s.pop + sumPopU units := by
  intro units
  induction units with
  | nil => intro s hs _; simpa [sumPopU] using hs
  | cons a l ih =>
      intro s hs hun
      rw [List.foldl_cons]
      obtain ⟨hst, hsum⟩ := mergeStep_mass u maxP maxA hu1 hu2 s a
        (hun a (by simp)) hs
      obtain ⟨hst2, hsum2⟩ := ih (mergeStep u maxP maxA s a) hst
        (fun x hx => hun x (by simp [hx]))
      refine ⟨hst2, ?_⟩
      rw [hsum2, hsum]
      simp [sumPopU]
      ring

/-- Mass conservation for `merge_units`: when the geometry union never
fails (and unit geometries are non-empty, unions preserving
non-emptiness), the total population of the emitted EAs equals the total
population of the input units. -/
theorem merge_units_mass (u : Geom → Geom → Option Geom) (units : List AUnit)
    (maxP maxA : ℚ)
    (hu1 : ∀ a b, ∃ g2, u a b = some g2)
    (hu2 : ∀ a b g2, isEmptyG a = false → u a b = some g2 → isEmptyG g2 = false)
    (hunits : ∀ un ∈ units, isEmptyG un.geometry = false) :
    sumPopEA (merge_units u units maxP maxA) = sumPopU units := by
  obtain ⟨⟨hz, hne⟩, hsum⟩ := mergeFold_mass u maxP maxA hu1 hu2 units
    ⟨none, 0, 0, []⟩ ⟨by simp, by simp⟩ hunits
  unfold merge_units mergeFinal
  cases hg : (units.foldl (mergeStep u maxP maxA) ⟨none, 0, 0, []⟩).geom with
  | none =>
      have h0 := hz hg
      rw [h0] at hsum
      simpa [sumPopEA] using hsum
  | some g =>
      have hgne := hne g hg
      simp only [hgne, Bool.false_eq_true, if_false]
      rw [sumPopEA_append]
      simp only [sumPopEA, List.map_cons, List.map_nil, List.sum_cons,
        List.sum_nil, add_zero] at hsum ⊢
      simpa using hsum

/-- A collection actually returned by `generate_eas` is exactly the output
of the merge stage: a run whose `sparse_areas` is non-empty never returns,
because line 165 evaluates `pd.concat` and `pd` is never imported in
`ea_processor.py`, so the run raises `NameError` instead of returning. -/
theorem generate_eas_some_eq_merge (fuel : ℕ) (u : Geom → Geom → Option Geom)
    (ovU : Geom → Geom → Geom) (ovI : List PopCell → Geom → List PopCell)
    (admin : Geom) (shapes : List (Geom × ℚ)) (maxP maxA : ℚ)
    (roads rivers settlements : Option Geom) (eas : List EA)
    (h : generate_eas fuel u ovU ovI admin shapes maxP maxA
          roads rivers settlements = some eas) :
    eas = merge_units u
      (split_by_boundaries ovI (rasterize_population shapes)
        (load_boundaries ovU roads rivers settlements)) maxP maxA := by
  simp only [generate_eas] at h
  split at h
  · exact absurd h (by simp)
  · split at h
    · injection h with h; exact h.symm
    · exact absurd h (by simp)

/-- C2: mass conservation.  In every run of the pipeline in which no
boundary layer is supplied and no geometry union raises (with the
modelling hypotheses that unit geometries are non-empty and union
preserves non-emptiness, true of real geometric union), the total
population of the collection returned by `generate_eas` equals the total
population of the cells produced by `rasterize_population`. -/
theorem generate_eas_mass (fuel : ℕ) (u : Geom → Geom → Option Geom)
    (ovU : Geom → Geom → Geom) (ovI : List PopCell → Geom → List PopCell)
    (admin : Geom) (shapes : List (Geom × ℚ)) (maxP maxA : ℚ) (eas : List EA)
    (hu1 : ∀ a b, ∃ g2, u a b = some g2)
    (hu2 : ∀ a b g2, isEmptyG a = false → u a b = some g2 → isEmptyG g2 = false)
    (hcells : ∀ c ∈ rasterize_population shapes, isEmptyG c.geometry = false)
    (h : generate_eas fuel u ovU ovI admin shapes maxP maxA
          none none none = some eas) :
    sumPopEA eas = sumPopC (rasterize_population shapes) := by
  have heq := generate_eas_some_eq_merge fuel u ovU ovI admin shapes maxP maxA
    none none none eas h
  have hb : load_boundaries ovU none none none = none := rfl
  rw [hb] at heq
  have hne : ∀ un ∈ split_by_boundaries ovI (rasterize_population shapes) none,
      isEmptyG un.geometry = false := by
    intro un hun
    simp only [split_by_boundaries, List.mem_map] at hun
    obtain ⟨c, hc, rfl⟩ := hun
    exact hcells c hc
  rw [heq, merge_units_mass u _ maxP maxA hu1 hu2 hne]
  simp only [split_by_boundaries, sumPopU, sumPopC, List.map_map]
  rfl

/-- Evaluation helper: the atomic units of the concrete one-cell run with
population 300 on a 2000 m × 2000 m square (area 4 km²). -/
theorem units_eval_300 :
    split_by_boundaries (fun p _ => p)
      (rasterize_population [([⟨0, 0, 2000, 2000⟩], 300)])
      (load_boundaries (fun a _ => a) none none none)
      = [⟨[⟨0, 0, 2000, 2000⟩], 300, 4⟩] := by
  have h1 : rasterize_population [([⟨0, 0, 2000, 2000⟩], 300)]
      = [⟨[⟨0, 0, 2000, 2000⟩], 300⟩] := by
    norm_num [rasterize_population, List.filterMap_cons]
  have h2 : areaG [⟨0, 0, 2000, 2000⟩] = 4000000 := by
    norm_num [areaG, sortDedup, coordsX, coordsY, normG, Rect.isEmptyR,
      pairs, inG, Rect.memB, List.insertionSort, List.orderedInsert,
      List.dedup_cons_of_not_mem, List.dedup_nil]
  rw [h1]
  norm_num [split_by_boundaries, load_boundaries, h2]

/-- Evaluation helper: the concrete one-cell run with population 300
returns its single merge EA (population 300 ≥ 0.3·750 and area
4 km² ≥ 0.3·9, so the EA is not sparse and the quadtree loop adds
nothing). -/
theorem generate_eas_eval_300 :
    generate_eas 1 (fun a b => some (a ++ b)) (fun a _ => a) (fun p _ => p)
      [] [([⟨0, 0, 2000, 2000⟩], 300)] 750 9 none none none
      = some [⟨[⟨0, 0, 2000, 2000⟩], 300, 4⟩] := by
  have h1 : rasterize_population [([⟨0, 0, 2000, 2000⟩], 300)]
      = [⟨[⟨0, 0, 2000, 2000⟩], 300⟩] := by
    norm_num [rasterize_population, List.filterMap_cons]
  have h3 := units_eval_300
  rw [h1] at h3
  have h4 : merge_units (fun a b => some (a ++ b))
      [⟨[⟨0, 0, 2000, 2000⟩], 300, 4⟩] 750 9
      = [⟨[⟨0, 0, 2000, 2000⟩], 300, 4⟩] := by
    norm_num [merge_units, mergeFinal, mergeStep, addPhase, emitPhase,
      isEmptyG, normG, Rect.isEmptyR]
  have h5 : sparseLoop 1 [⟨[⟨0, 0, 2000, 2000⟩], 300⟩] 750 9 []
      [⟨[⟨0, 0, 2000, 2000⟩], 300, 4⟩] = some [] := by
    norm_num [sparseLoop]
  simp only [generate_eas, h1, h3, h4, h5, List.isEmpty_nil, if_true]

/-- Witness for C2: a concrete no-boundary run (one cell of population 300
and area 4 km², caps 750 and 9) returns a collection whose total
population equals the rasterized total. -/
theorem generate_eas_mass_witness :
    sumPopEA [⟨[⟨0, 0, 2000, 2000⟩], 300, 4⟩]
      = sumPopC (rasterize_population [([⟨0, 0, 2000, 2000⟩], 300)]) :=
  generate_eas_mass 1 (fun a b => some (a ++ b)) (fun a _ => a) (fun p _ => p)
    [] [([⟨0, 0, 2000, 2000⟩], 300)] 750 9 [⟨[⟨0, 0, 2000, 2000⟩], 300, 4⟩]
    (fun a b => ⟨a ++ b, rfl⟩)
    (fun a b g2 ha hg => by
      injection hg with hg; rw [← hg]; exact isEmptyG_append_false a b ha)
    (by
      intro c hc
      norm_num [rasterize_population] at hc
      rw [← hc]
      decide)
    generate_eas_eval_300

/-- C1 counterexample: a concrete no-boundary run of `generate_eas` with
one unit of population 1000 (area 9 km², caps 750 and 9).  The returned
final collection contains an EA with population 1000 > max_pop = 750, and
that EA is not marked oversize — no record of the collection carries an
`oversize` field at all — so the claim "every non-oversize EA satisfies
the caps" fails on the code. -/
theorem generate_eas_caps_cex :
    generate_eas 1 (fun a b => some (a ++ b)) (fun a _ => a) (fun p _ => p)
      [] [([⟨0, 0, 3000, 3000⟩], 1000)] 750 9 none none none
      = some [⟨[⟨0, 0, 3000, 3000⟩], 1000, 9⟩]
    ∧ ¬ ((1000 : ℚ) ≤ 750)
    ∧ ¬ ("oversize" ∈ merged_record_fields) := by
  refine ⟨?_, by norm_num, by decide⟩
  have h1 : rasterize_population [([⟨0, 0, 3000, 3000⟩], 1000)]
      = [⟨[⟨0, 0, 3000, 3000⟩], 1000⟩] := by
    norm_num [rasterize_population, List.filterMap_cons]
  have h2 : areaG [⟨0, 0, 3000, 3000⟩] = 9000000 := by
    norm_num [areaG, sortDedup, coordsX, coordsY, normG, Rect.isEmptyR,
      pairs, inG, Rect.memB, List.insertionSort, List.orderedInsert,
      List.dedup_cons_of_not_mem, List.dedup_nil]
  have h3 : split_by_boundaries (fun p _ => p)
      [(⟨[⟨0, 0, 3000, 3000⟩], 1000⟩ : PopCell)]
      (load_boundaries (fun a _ => a) none none none)
      = [⟨[⟨0, 0, 3000, 3000⟩], 1000, 9⟩] := by
    norm_num [split_by_boundaries, load_boundaries, h2]
  have h4 : merge_units (fun a b => some (a ++ b))
      [⟨[⟨0, 0, 3000, 3000⟩], 1000, 9⟩] 750 9
      = [⟨[⟨0, 0, 3000, 3000⟩], 1000, 9⟩] := by
    norm_num [merge_units, mergeFinal, mergeStep, addPhase, emitPhase,
      isEmptyG, normG, Rect.isEmptyR]
  have h5 : sparseLoop 1 [⟨[⟨0, 0, 3000, 3000⟩], 1000⟩] 750 9 []
      [⟨[⟨0, 0, 3000, 3000⟩], 1000, 9⟩] = some [] := by
    norm_num [sparseLoop]
  simp only [generate_eas, h1, h3, h4, h5, List.isEmpty_nil, if_true]

/-- C1 (amended): the code never marks any EA oversize (no such field
exists), and without a precondition the caps can be violated.  Provided
every atomic unit entering the merge individually satisfies both caps
(with non-empty geometries and a union preserving non-emptiness), every EA
in any collection actually returned by `generate_eas` satisfies
`population ≤ max_pop` and `area_km2 ≤ max_area`. -/
theorem generate_eas_caps (fuel : ℕ) (u : Geom → Geom → Option Geom)
    (ovU : Geom → Geom → Geom) (ovI : List PopCell → Geom → List PopCell)
    (admin : Geom) (shapes : List (Geom × ℚ)) (maxP maxA : ℚ)
    (roads rivers settlements : Option Geom) (eas : List EA)
    (hu : ∀ a b g2, isEmptyG a = false → u a b = some g2 → isEmptyG g2 = false)
    (hunits : ∀ un ∈ split_by_boundaries ovI (rasterize_population shapes)
        (load_boundaries ovU roads rivers settlements), capsP maxP maxA un)
    (h : generate_eas fuel u ovU ovI admin shapes maxP maxA
          roads rivers settlements = some eas) :
    ∀ ea ∈ eas, ea.population ≤ maxP ∧ ea.area_km2 ≤ maxA := by
  have heq := generate_eas_some_eq_merge fuel u ovU ovI admin shapes maxP maxA
    roads rivers settlements eas h
  rw [heq]
  exact merge_units_caps u _ maxP maxA hu hunits

/-- Witness for C1: in the concrete 300-population run the returned EA
satisfies both caps. -/
theorem generate_eas_caps_witness :
    ((⟨[⟨0, 0, 2000, 2000⟩], 300, 4⟩ : EA).population ≤ 750)
    ∧ ((⟨[⟨0, 0, 2000, 2000⟩], 300, 4⟩ : EA).area_km2 ≤ 9) :=
  generate_eas_caps 1 (fun a b => some (a ++ b)) (fun a _ => a) (fun p _ => p)
    [] [([⟨0, 0, 2000, 2000⟩], 300)] 750 9 none none none
    [⟨[⟨0, 0, 2000, 2000⟩], 300, 4⟩]
    (fun a b g2 ha hg => by
      injection hg with hg; rw [← hg]; exact isEmptyG_append_false a b ha)
    (by
      rw [units_eval_300]
      intro un hun
      rw [List.mem_singleton] at hun
      rw [hun]
      refine ⟨by norm_num, by norm_num, by decide⟩)
    generate_eas_eval_300
    ⟨[⟨0, 0, 2000, 2000⟩], 300, 4⟩ (by simp)

/-- Clipping is contained in the original geometry: every point of
`quad.intersection(geometry)` is a point of `geometry`. -/
theorem toSetG_clipG_subset (q : Rect) (g : Geom) :
    toSetG (clipG q g) ⊆ toSetG g := by
  intro p hp
  obtain ⟨r, hr, hpr⟩ := hp
  simp only [clipG, List.mem_filter, List.mem_map] at hr
  obtain ⟨⟨r0, hr0, rfl⟩, _⟩ := hr
  refine ⟨r0, hr0, ?_⟩
  obtain ⟨h1, h2, h3, h4⟩ := hpr
  exact ⟨le_trans (le_max_right _ _) h1, le_trans h2 (min_le_right _ _),
    le_trans (le_max_right _ _) h3, le_trans h4 (min_le_right _ _)⟩

/-- Containment for one quadrant branch: all leaves it contributes are
contained in the geometry, provided the recursive results are contained in
their clipped quadrant. -/
theorem quadBranch_subset (g : Geom) (maxA maxP : ℚ) (cells : List PopCell)
    (qrec : Geom → Option (List Geom)) (q : Rect) (l : List Geom)
    (hrec : ∀ lc, qrec (clipG q g) = some lc →
      ∀ x ∈ lc, toSetG x ⊆ toSetG (clipG q g))
    (h : quadBranch g maxA maxP cells qrec q = some l) :
    ∀ x ∈ l, toSetG x ⊆ toSetG g := by
  simp only [quadBranch] at h
  split at h
  · injection h with h; rw [← h]; simp
  · split at h
    · injection h with h; rw [← h]; simp
    · split at h
      · intro x hx
        exact (hrec l h x hx).trans (toSetG_clipG_subset q g)
      · injection h with h; rw [← h]
        intro x hx
        rw [List.mem_singleton] at hx
        rw [hx]
        exact toSetG_clipG_subset q g

/-- C9: every geometry in a list returned by `quadtree_split` is spatially
contained in the input geometry: each leaf is the input itself or an
iterated clipped quadrant of it, so the leaves never extend outside the
original extent. -/
theorem quadtree_split_subset (n : ℕ) :
    ∀ (g : Geom) (maxA maxP : ℚ) (cells : List PopCell) (L : List Geom),
      quadtree_split n g maxA maxP cells = some L →
      ∀ ℓ ∈ L, toSetG ℓ ⊆ toSetG g := by
  induction n with
  | zero => intro g maxA maxP cells L h; simp [quadtree_split] at h
  | succ n ih =>
      intro g maxA maxP cells L h
      simp only [quadtree_split] at h
      split at h
      · injection h with h
        rw [← h]
        intro ℓ hℓ
        rw [List.mem_singleton] at hℓ
        rw [hℓ]
      · cases hq1 : quadBranch g maxA maxP cells
            (fun c => quadtree_split n c maxA maxP cells) (quadsOf g).1 with
        | none => rw [hq1] at h; simp [Option.bind] at h
        | some l1 =>
        cases hq2 : quadBranch g maxA maxP cells
            (fun c => quadtree_split n c maxA maxP cells) (quadsOf g).2.1 with
        | none => rw [hq1, hq2] at h; simp [Option.bind] at h
        | some l2 =>
        cases hq3 : quadBranch g maxA maxP cells
            (fun c => quadtree_split n c maxA maxP cells) (quadsOf g).2.2.1 with
        | none => rw [hq1, hq2, hq3] at h; simp [Option.bind] at h
        | some l3 =>
        cases hq4 : quadBranch g maxA maxP cells
            (fun c => quadtree_split n c maxA maxP cells) (quadsOf g).2.2.2 with
        | none => rw [hq1, hq2, hq3, hq4] at h; simp [Option.bind] at h
        | some l4 =>
        rw [hq1, hq2, hq3, hq4] at h
        simp only [Option.bind] at h
        injection h with h
        rw [← h]
        intro ℓ hℓ
        simp only [List.mem_append] at hℓ
        rcases hℓ with ((hℓ | hℓ) | hℓ) | hℓ
        · exact quadBranch_subset g maxA maxP cells _ _ l1
            (fun lc hlc x hx => ih _ maxA maxP cells lc hlc x hx) hq1 ℓ hℓ
        · exact quadBranch_subset g maxA maxP cells _ _ l2
            (fun lc hlc x hx => ih _ maxA maxP cells lc hlc x hx) hq2 ℓ hℓ
        · exact quadBranch_subset g maxA maxP cells _ _ l3
            (fun lc hlc x hx => ih _ maxA maxP cells lc hlc x hx) hq3 ℓ hℓ
        · exact quadBranch_subset g maxA maxP cells _ _ l4
            (fun lc hlc x hx => ih _ maxA maxP cells lc hlc x hx) hq4 ℓ hℓ

/-- Witness for C9: a concrete leaf of a concrete run is contained in the
input geometry. -/
theorem quadtree_split_subset_witness :
    toSetG [⟨0, 0, 1000, 1000⟩] ⊆ toSetG [⟨0, 0, 1000, 1000⟩] :=
  quadtree_split_subset 1 [⟨0, 0, 1000, 1000⟩] 9 750 [] [[⟨0, 0, 1000, 1000⟩]]
    (by
      norm_num [quadtree_split, areaG, sortDedup, coordsX, coordsY, normG,
        Rect.isEmptyR, pairs, inG, Rect.memB, List.insertionSort,
        List.orderedInsert, List.dedup_cons_of_not_mem, List.dedup_nil])
    [⟨0, 0, 1000, 1000⟩] (by simp)

/-- A successful quadtree call on a geometry that already satisfies the
area cap returns that geometry as its only leaf, regardless of
population: the top-of-call check at source line 66 tests area only. -/
theorem quadtree_split_leaf (n : ℕ) (c : Geom) (maxA maxP : ℚ)
    (cells : List PopCell) (l : List Geom)
    (hl : quadtree_split n c maxA maxP cells = some l)
    (ha : areaG c / 1000000 ≤ maxA) : l = [c] := by
  cases n with
  | zero => simp [quadtree_split] at hl
  | succ n =>
      simp only [quadtree_split, if_pos ha] at hl
      injection hl with hl
      exact hl.symm

/-- Quadrant-branch results agree across different population data and
population caps: the only pop-dependent choice (recurse vs keep as leaf)
cannot change the contributed leaves when both runs succeed. -/
theorem quadBranch_indep (g : Geom) (maxA maxP maxP' : ℚ)
    (cells cells' : List PopCell) (qrec qrec' : Geom → Option (List Geom))
    (q : Rect) (l l' : List Geom)
    (hrec : ∀ c lc lc', qrec c = some lc → qrec' c = some lc' → lc = lc')
    (hrecL : ∀ c lc, qrec c = some lc → areaG c / 1000000 ≤ maxA → lc = [c])
    (hrecL' : ∀ c lc, qrec' c = some lc → areaG c / 1000000 ≤ maxA → lc = [c])
    (h : quadBranch g maxA maxP cells qrec q = some l)
    (h' : quadBranch g maxA maxP' cells' qrec' q = some l') : l = l' := by
  simp only [quadBranch] at h h'
  by_cases hcont : (!containsG g q.centerR) = true
  · rw [if_pos hcont] at h h'
    injection h with h; injection h' with h'
    rw [← h, ← h']
  · rw [if_neg hcont] at h h'
    by_cases hemp : isEmptyG (clipG q g) = true
    · rw [if_pos hemp] at h h'
      injection h with h; injection h' with h'
      rw [← h, ← h']
    · rw [if_neg hemp] at h h'
      by_cases hc1 : quadPopW (clipG q g) cells > maxP
          ∨ areaG (clipG q g) / 1000000 > maxA
      · rw [if_pos hc1] at h
        by_cases hc2 : quadPopW (clipG q g) cells' > maxP'
            ∨ areaG (clipG q g) / 1000000 > maxA
        · rw [if_pos hc2] at h'
          exact hrec _ l l' h h'
        · rw [if_neg hc2] at h'
          push_neg at hc2
          injection h' with h'
          rw [hrecL _ l h (le_of_not_lt (not_lt.mpr hc2.2)), ← h']
      · rw [if_neg hc1] at h
        push_neg at hc1
        by_cases hc2 : quadPopW (clipG q g) cells' > maxP'
            ∨ areaG (clipG q g) / 1000000 > maxA
        · rw [if_pos hc2] at h'
          injection h with h
          rw [hrecL' _ l' h' hc1.2, ← h]
        · rw [if_neg hc2] at h'
          injection h with h; injection h' with h'
          rw [← h, ← h']

/-- C5 (amended): the code computes each surviving clipped quadrant's
population as the sum over cells lying wholly `within` the quadrant (not
over cells whose centroid falls inside it), and recursion continues when
that population exceeds `max_pop` or the area exceeds `max_area`.  As a
consequence the leaf list returned by `quadtree_split` does not depend on
the population data or on `max_pop` at all: any two successful runs on
the same geometry and the same `max_area` return the same leaves —
population only steers recursion into quadrants that are then immediately
returned unchanged by the area-only top check. -/
theorem quadtree_split_pop_indep (n : ℕ) :
    ∀ (m : ℕ) (g : Geom) (maxA maxP maxP' : ℚ)
      (cells cells' : List PopCell) (L L' : List Geom),
      quadtree_split n g maxA maxP cells = some L →
      quadtree_split m g maxA maxP' cells' = some L' → L = L' := by
  induction n with
  | zero => intro m g maxA maxP maxP' cells cells' L L' h; simp [quadtree_split] at h
  | succ n ih =>
      intro m g maxA maxP maxP' cells cells' L L' h h'
      cases m with
      | zero => simp [quadtree_split] at h'
      | succ m =>
          simp only [quadtree_split] at h h'
          by_cases hleaf : areaG g / 1000000 ≤ maxA
          · rw [if_pos hleaf] at h h'
            injection h with h; injection h' with h'
            rw [← h, ← h']
          · rw [if_neg hleaf] at h h'
            cases hq1 : quadBranch g maxA maxP cells
                (fun c => quadtree_split n c maxA maxP cells) (quadsOf g).1 with
            | none => rw [hq1] at h; simp [Option.bind] at h
            | some l1 =>
            cases hq2 : quadBranch g maxA maxP cells
                (fun c => quadtree_split n c maxA maxP cells) (quadsOf g).2.1 with
            | none => rw [hq1, hq2] at h; simp [Option.bind] at h
            | some l2 =>
            cases hq3 : quadBranch g maxA maxP cells
                (fun c => quadtree_split n c maxA maxP cells) (quadsOf g).2.2.1 with
            | none => rw [hq1, hq2, hq3] at h; simp [Option.bind] at h
            | some l3 =>
            cases hq4 : quadBranch g maxA maxP cells
                (fun c => quadtree_split n c maxA maxP cells) (quadsOf g).2.2.2 with
            | none => rw [hq1, hq2, hq3, hq4] at h; simp [Option.bind] at h
            | some l4 =>
            cases hq1' : quadBranch g maxA maxP' cells'
                (fun c => quadtree_split m c maxA maxP' cells') (quadsOf g).1 with
            | none => rw [hq1'] at h'; simp [Option.bind] at h'
            | some l1' =>
            cases hq2' : quadBranch g maxA maxP' cells'
                (fun c => quadtree_split m c maxA maxP' cells') (quadsOf g).2.1 with
            | none => rw [hq1', hq2'] at h'; simp [Option.bind] at h'
            | some l2' =>
            cases hq3' : quadBranch g maxA maxP' cells'
                (fun c => quadtree_split m c maxA maxP' cells') (quadsOf g).2.2.1 with
            | none => rw [hq1', hq2', hq3'] at h'; simp [Option.bind] at h'
            | some l3' =>
            cases hq4' : quadBranch g maxA maxP' cells'
                (fun c => quadtree_split m c maxA maxP' cells') (quadsOf g).2.2.2 with
            | none => rw [hq1', hq2', hq3', hq4'] at h'; simp [Option.bind] at h'
            | some l4' =>
            rw [hq1, hq2, hq3, hq4] at h
            rw [hq1', hq2', hq3', hq4'] at h'
            simp only [Option.bind] at h h'
            injection h with h; injection h' with h'
            have e1 := quadBranch_indep g maxA maxP maxP' cells cells' _ _
              (quadsOf g).1 l1 l1'
              (fun c lc lc' hc hc' => ih m c maxA maxP maxP' cells cells' lc lc' hc hc')
              (fun c lc hc ha => quadtree_split_leaf n c maxA maxP cells lc hc ha)
              (fun c lc hc ha => quadtree_split_leaf m c maxA maxP' cells' lc hc ha)
              hq1 hq1'
            have e2 := quadBranch_indep g maxA maxP maxP' cells cells' _ _
              (quadsOf g).2.1 l2 l2'
              (fun c lc lc' hc hc' => ih m c maxA maxP maxP' cells cells' lc lc' hc hc')
              (fun c lc hc ha => quadtree_split_leaf n c maxA maxP cells lc hc ha)
              (fun c lc hc ha => quadtree_split_leaf m c maxA maxP' cells' lc hc ha)
              hq2 hq2'
            have e3 := quadBranch_indep g maxA maxP maxP' cells cells' _ _
              (quadsOf g).2.2.1 l3 l3'
              (fun c lc lc' hc hc' => ih m c maxA maxP maxP' cells cells' lc lc' hc hc')
              (fun c lc hc ha => quadtree_split_leaf n c maxA maxP cells lc hc ha)
              (fun c lc hc ha => quadtree_split_leaf m c maxA maxP' cells' lc hc ha)
              hq3 hq3'
            have e4 := quadBranch_indep g maxA maxP maxP' cells cells' _ _
              (quadsOf g).2.2.2 l4 l4'
              (fun c lc lc' hc hc' => ih m c maxA maxP maxP' cells cells' lc lc' hc hc')
              (fun c lc hc ha => quadtree_split_leaf n c maxA maxP cells lc hc ha)
              (fun c lc hc ha => quadtree_split_leaf m c maxA maxP' cells' lc hc ha)
              hq4 hq4'
            rw [← h, ← h', e1, e2, e3, e4]

/-- Witness for the amended C5: two successful runs with different fuel,
different `max_pop` and different population data return the same
leaves. -/
theorem quadtree_split_pop_indep_witness :
    [[(⟨0, 0, 1000, 1000⟩ : Rect)]] = [[(⟨0, 0, 1000, 1000⟩ : Rect)]] :=
  quadtree_split_pop_indep 1 2 [⟨0, 0, 1000, 1000⟩] 9 750 600 []
    [⟨[⟨0, 0, 500, 500⟩], 50⟩] [[⟨0, 0, 1000, 1000⟩]] [[⟨0, 0, 1000, 1000⟩]]
    (by
      norm_num [quadtree_split, areaG, sortDedup, coordsX, coordsY, normG,
        Rect.isEmptyR, pairs, inG, Rect.memB, List.insertionSort,
        List.orderedInsert, List.dedup_cons_of_not_mem, List.dedup_nil])
    (by
      norm_num [quadtree_split, areaG, sortDedup, coordsX, coordsY, normG,
        Rect.isEmptyR, pairs, inG, Rect.memB, List.insertionSort,
        List.orderedInsert, List.dedup_cons_of_not_mem, List.dedup_nil])

/-- C5 counterexample: a concrete refinement situation in which the
quadrant population the code uses differs from the centroid-based sum the
claim describes.  The 4000 m square exceeds `max_area = 9` km², so it is
split; its first quadrant `[0,2000]²` survives the centroid filter and is
clipped to itself; the single population cell `[1400,2400]×[500,1500]`
(population 1000) straddles the quadrant boundary: its centroid (1900,
1000) falls inside the quadrant, so the claim's centroid rule counts 1000,
but the cell does not lie `within` the quadrant, so the code's `within`
sum (source lines 89-90) is 0. -/
theorem quadtree_pop_centroid_cex :
    areaG [⟨0, 0, 4000, 4000⟩] / 1000000 > 9
    ∧ (quadsOf [⟨0, 0, 4000, 4000⟩]).1 = ⟨0, 0, 2000, 2000⟩
    ∧ containsG [⟨0, 0, 4000, 4000⟩] (Rect.centerR ⟨0, 0, 2000, 2000⟩) = true
    ∧ clipG ⟨0, 0, 2000, 2000⟩ [⟨0, 0, 4000, 4000⟩] = [⟨0, 0, 2000, 2000⟩]
    ∧ quadPopW [⟨0, 0, 2000, 2000⟩] [⟨[⟨1400, 500, 2400, 1500⟩], 1000⟩] = 0
    ∧ quadPopCentroid [⟨0, 0, 2000, 2000⟩] [⟨[⟨1400, 500, 2400, 1500⟩], 1000⟩]
        = 1000 := by
  refine ⟨?_, ?_, ?_, ?_, ?_, ?_⟩
  · norm_num [areaG, sortDedup, coordsX, coordsY, normG, Rect.isEmptyR,
      pairs, inG, Rect.memB, List.insertionSort, List.orderedInsert,
      List.dedup_cons_of_not_mem, List.dedup_nil]
  · norm_num [quadsOf, boundsG, sortDedup, coordsX, coordsY, normG,
      Rect.isEmptyR, List.insertionSort, List.orderedInsert,
      List.dedup_cons_of_not_mem, List.dedup_nil]
  · norm_num [containsG, Rect.centerR, Rect.memIntB]
  · norm_num [clipG, interR, Rect.isEmptyR]
  · norm_num [quadPopW, withinG, subsetG, isEmptyG, sortDedup, coordsX,
      coordsY, normG, Rect.isEmptyR, pairs, inG, Rect.memB,
      List.insertionSort, List.orderedInsert, List.dedup_cons_of_not_mem,
      List.dedup_cons_of_mem, List.dedup_nil]
  · norm_num [quadPopCentroid, centroidG, containsG, Rect.memIntB, areaG,
      sortDedup, coordsX, coordsY, normG, Rect.isEmptyR, pairs, inG,
      Rect.memB, List.insertionSort, List.orderedInsert,
      List.dedup_cons_of_not_mem, List.dedup_cons_of_mem, List.dedup_nil]

/-- Width of the bounding box of a geometry. -/
def bbW (g : Geom) : ℚ := (boundsG g).2.2.1 - (boundsG g).1

/-- Height of the bounding box of a geometry. -/
def bbH (g : Geom) : ℚ := (boundsG g).2.2.2 - (boundsG g).2.1

/-- The sorted deduplicated coordinate list is sorted. -/
theorem sortDedup_sorted (l : List ℚ) : (sortDedup l).Sorted (· ≤ ·) :=
  List.Pairwise.sublist (List.dedup_sublist _) (List.sorted_insertionSort _ l)

/-- Membership in the sorted deduplicated coordinate list. -/
theorem mem_sortDedup {x : ℚ} {l : List ℚ} : x ∈ sortDedup l ↔ x ∈ l := by
  unfold sortDedup
  rw [List.mem_dedup]
  exact (List.perm_insertionSort _ l).mem_iff

/-- The sorted deduplicated list is empty only for the empty list. -/
theorem sortDedup_eq_nil_iff (l : List ℚ) : sortDedup l = [] ↔ l = [] := by
  unfold sortDedup
  rw [List.dedup_eq_nil]
  constructor
  · intro h
    have hp := List.perm_insertionSort (· ≤ ·) l
    rw [h] at hp
    exact hp.symm.eq_nil
  · intro h
    rw [h]
    rfl

/-- Consecutive pairs of a sorted list are ordered. -/
theorem pairs_le (l : List ℚ) (hl : l.Sorted (· ≤ ·)) :
    ∀ p ∈ pairs l, p.1 ≤ p.2 := by
  induction l with
  | nil => simp [pairs]
  | cons a t ih =>
      cases t with
      | nil => simp [pairs]
      | cons b t' =>
          intro p hp
          rw [show pairs (a :: b :: t') = (a, b) :: pairs (b :: t') from rfl] at hp
          rcases List.mem_cons.mp hp with rfl | hp'
          · exact (List.sorted_cons.mp hl).1 b (by simp)
          · exact ih (List.sorted_cons.mp hl).2 p hp'

/-- The differences of consecutive pairs telescope to last minus first. -/
theorem pairs_telescope (l : List ℚ) : ∀ a : ℚ,
    ((pairs (a :: l)).map (fun p => p.2 - p.1)).sum = l.getLastD a - a := by
  induction l with
  | nil => intro a; simp [pairs]
  | cons b t ih =>
      intro a
      rw [show pairs (a :: b :: t) = (a, b) :: pairs (b :: t) from rfl]
      simp only [List.map_cons, List.sum_cons, ih b, List.getLastD_cons]
      ring

/-- The head of a sorted list is at most its last element. -/
theorem sorted_head_le_getLastD (l : List ℚ) : ∀ a : ℚ,
    (a :: l).Sorted (· ≤ ·) → a ≤ l.getLastD a := by
  induction l with
  | nil => intro a _; simp
  | cons b t ih =>
      intro a h
      rw [List.getLastD_cons]
      have hab : a ≤ b := (List.sorted_cons.mp h).1 b (by simp)
      exact hab.trans (ih b (List.sorted_cons.mp h).2)

/-- The last element (with default the head) of a list is a member of the
list with the default prepended. -/
theorem getLastD_mem_cons (l : List ℚ) : ∀ a : ℚ, l.getLastD a ∈ a :: l := by
  induction l with
  | nil => intro a; simp
  | cons b t ih =>
      intro a
      rw [List.getLastD_cons]
      rcases List.mem_cons.mp (ih b) with h | h
      · rw [h]; simp
      · exact List.mem_cons.mpr (Or.inr (List.mem_cons.mpr (Or.inr h)))

/-- The x-coordinate list is empty exactly when no non-empty rectangle
remains. -/
theorem coordsX_nil_iff (g : Geom) : coordsX g = [] ↔ normG g = [] := by
  unfold coordsX
  cases normG g <;> simp

/-- The y-coordinate list is empty exactly when no non-empty rectangle
remains. -/
theorem coordsY_nil_iff (g : Geom) : coordsY g = [] ↔ normG g = [] := by
  unfold coordsY
  cases normG g <;> simp

/-- The exact area of a geometry is bounded by the area of its bounding
box. -/
theorem areaG_le_bbox (g : Geom) : areaG g ≤ bbW g * bbH g := by
  simp only [areaG, bbW, bbH, boundsG]
  cases hxs : sortDedup (coordsX g) with
  | nil => simp [pairs]
  | cons x1 xs' =>
      cases hys : sortDedup (coordsY g) with
      | nil =>
          exfalso
          have h1 : coordsY g = [] := (sortDedup_eq_nil_iff _).mp hys
          have h2 : normG g = [] := (coordsY_nil_iff g).mp h1
          have h3 : coordsX g = [] := (coordsX_nil_iff g).mpr h2
          rw [h3] at hxs
          simp [sortDedup] at hxs
      | cons y1 ys' =>
          have hsx : (x1 :: xs').Sorted (· ≤ ·) := hxs ▸ sortDedup_sorted (coordsX g)
          have hsy : (y1 :: ys').Sorted (· ≤ ·) := hys ▸ sortDedup_sorted (coordsY g)
          have hdx : ∀ px ∈ pairs (x1 :: xs'), 0 ≤ px.2 - px.1 :=
            fun px hpx => sub_nonneg.mpr (pairs_le _ hsx px hpx)
          have hdy : ∀ py ∈ pairs (y1 :: ys'), 0 ≤ py.2 - py.1 :=
            fun py hpy => sub_nonneg.mpr (pairs_le _ hsy py hpy)
          calc ((pairs (x1 :: xs')).map (fun px =>
                  ((pairs (y1 :: ys')).map (fun py =>
                    if inG g ((px.1 + px.2) / 2) ((py.1 + py.2) / 2) then
                      (px.2 - px.1) * (py.2 - py.1)
                    else 0)).sum)).sum
              ≤ ((pairs (x1 :: xs')).map (fun px =>
                  ((pairs (y1 :: ys')).map (fun py =>
                    (px.2 - px.1) * (py.2 - py.1))).sum)).sum := by
                refine List.sum_le_sum (fun px hpx => ?_)
                refine List.sum_le_sum (fun py hpy => ?_)
                split
                · exact le_refl _
                · exact mul_nonneg (hdx px hpx) (hdy py hpy)
            _ = ((pairs (x1 :: xs')).map (fun px =>
                  (px.2 - px.1) * ((pairs (y1 :: ys')).map (fun py => py.2 - py.1)).sum)).sum := by
                refine congrArg List.sum (List.map_congr_left (fun px _ => ?_))
                exact List.sum_map_mul_left _ _ _
            _ = ((pairs (x1 :: xs')).map (fun px => px.2 - px.1)).sum
                  * ((pairs (y1 :: ys')).map (fun py => py.2 - py.1)).sum := by
                exact List.sum_map_mul_right _ _ _
            _ = (xs'.getLastD x1 - x1) * (ys'.getLastD y1 - y1) := by
                rw [pairs_telescope, pairs_telescope]

/-- Characterisation of the x-coordinate list. -/
theorem mem_coordsX_iff (h : Geom) (x : ℚ) :
    x ∈ coordsX h ↔ ∃ r ∈ normG h, x = r.minx ∨ x = r.maxx := by
  unfold coordsX
  generalize normG h = l
  induction l with
  | nil => simp
  | cons r t ih =>
      simp only [List.foldr_cons, List.mem_cons, ih]
      constructor
      · rintro (rfl | rfl | ⟨r', hr', hx⟩)
        · exact ⟨r, Or.inl rfl, Or.inl rfl⟩
        · exact ⟨r, Or.inl rfl, Or.inr rfl⟩
        · exact ⟨r', Or.inr hr', hx⟩
      · rintro ⟨r', (rfl | hr'), hx⟩
        · rcases hx with rfl | rfl
          · exact Or.inl rfl
          · exact Or.inr (Or.inl rfl)
        · exact Or.inr (Or.inr ⟨r', hr', hx⟩)

/-- Characterisation of the y-coordinate list. -/
theorem mem_coordsY_iff (h : Geom) (y : ℚ) :
    y ∈ coordsY h ↔ ∃ r ∈ normG h, y = r.miny ∨ y = r.maxy := by
  unfold coordsY
  generalize normG h = l
  induction l with
  | nil => simp
  | cons r t ih =>
      simp only [List.foldr_cons, List.mem_cons, ih]
      constructor
      · rintro (rfl | rfl | ⟨r', hr', hy⟩)
        · exact ⟨r, Or.inl rfl, Or.inl rfl⟩
        · exact ⟨r, Or.inl rfl, Or.inr rfl⟩
        · exact ⟨r', Or.inr hr', hy⟩
      · rintro ⟨r', (rfl | hr'), hy⟩
        · rcases hy with rfl | rfl
          · exact Or.inl rfl
          · exact Or.inr (Or.inl rfl)
        · exact Or.inr (Or.inr ⟨r', hr', hy⟩)

/-- A rectangle is non-empty exactly when its intervals are ordered. -/
theorem isEmptyR_false_iff (r : Rect) :
    r.isEmptyR = false ↔ r.minx ≤ r.maxx ∧ r.miny ≤ r.maxy := by
  simp [Rect.isEmptyR, not_lt]

/-- Every x-coordinate of a clipped geometry lies within the quadrant's
x-interval. -/
theorem clip_coordX_bounds (q : Rect) (g : Geom) :
    ∀ x ∈ coordsX (clipG q g), q.minx ≤ x ∧ x ≤ q.maxx := by
  intro x hx
  rw [mem_coordsX_iff] at hx
  obtain ⟨r, hr, hx⟩ := hx
  simp only [normG, clipG, List.mem_filter, List.mem_map] at hr
  obtain ⟨⟨⟨r0, _, rfl⟩, hne1⟩, _⟩ := hr
  rw [Bool.not_eq_eq_eq_not, Bool.not_true] at hne1
  obtain ⟨hxo, _⟩ := (isEmptyR_false_iff _).mp hne1
  simp only [interR] at hxo ⊢
  rcases hx with rfl | rfl
  · exact ⟨le_max_left _ _, le_trans hxo (min_le_left _ _)⟩
  · exact ⟨le_trans (le_max_left _ _) hxo, min_le_left _ _⟩

/-- Every y-coordinate of a clipped geometry lies within the quadrant's
y-interval. -/
theorem clip_coordY_bounds (q : Rect) (g : Geom) :
    ∀ y ∈ coordsY (clipG q g), q.miny ≤ y ∧ y ≤ q.maxy := by
  intro y hy
  rw [mem_coordsY_iff] at hy
  obtain ⟨r, hr, hy⟩ := hy
  simp only [normG, clipG, List.mem_filter, List.mem_map] at hr
  obtain ⟨⟨⟨r0, _, rfl⟩, hne1⟩, _⟩ := hr
  rw [Bool.not_eq_eq_eq_not, Bool.not_true] at hne1
  obtain ⟨_, hyo⟩ := (isEmptyR_false_iff _).mp hne1
  simp only [interR] at hyo ⊢
  rcases hy with rfl | rfl
  · exact ⟨le_max_left _ _, le_trans hyo (min_le_left _ _)⟩
  · exact ⟨le_trans (le_max_left _ _) hyo, min_le_left _ _⟩

/-- The bounding box of a non-empty clipped quadrant fits inside the
quadrant. -/
theorem bb_clip_le (q : Rect) (g : Geom) (hne : isEmptyG (clipG q g) = false) :
    (0 ≤ bbW (clipG q g) ∧ bbW (clipG q g) ≤ q.maxx - q.minx)
    ∧ (0 ≤ bbH (clipG q g) ∧ bbH (clipG q g) ≤ q.maxy - q.miny) := by
  have hn : normG (clipG q g) ≠ [] := by
    intro h
    unfold isEmptyG at hne
    rw [h] at hne
    simp at hne
  have hcx : coordsX (clipG q g) ≠ [] := fun h => hn ((coordsX_nil_iff _).mp h)
  have hcy : coordsY (clipG q g) ≠ [] := fun h => hn ((coordsY_nil_iff _).mp h)
  cases hxs : sortDedup (coordsX (clipG q g)) with
  | nil => exact absurd ((sortDedup_eq_nil_iff _).mp hxs) hcx
  | cons x1 xs' =>
      cases hys : sortDedup (coordsY (clipG q g)) with
      | nil => exact absurd ((sortDedup_eq_nil_iff _).mp hys) hcy
      | cons y1 ys' =>
          have hbb : boundsG (clipG q g) = (x1, y1, xs'.getLastD x1, ys'.getLastD y1) := by
            unfold boundsG
            rw [hxs, hys]
          have hx1 : x1 ∈ coordsX (clipG q g) :=
            mem_sortDedup.mp (hxs ▸ List.mem_cons_self x1 xs')
          have hlastx : xs'.getLastD x1 ∈ coordsX (clipG q g) :=
            mem_sortDedup.mp (hxs ▸ getLastD_mem_cons xs' x1)
          have hy1 : y1 ∈ coordsY (clipG q g) :=
            mem_sortDedup.mp (hys ▸ List.mem_cons_self y1 ys')
          have hlasty : ys'.getLastD y1 ∈ coordsY (clipG q g) :=
            mem_sortDedup.mp (hys ▸ getLastD_mem_cons ys' y1)
          obtain ⟨hx1l, _⟩ := clip_coordX_bounds q g x1 hx1
          obtain ⟨_, hxlr⟩ := clip_coordX_bounds q g _ hlastx
          obtain ⟨hy1l, _⟩ := clip_coordY_bounds q g y1 hy1
          obtain ⟨_, hylr⟩ := clip_coordY_bounds q g _ hlasty
          have h0x : x1 ≤ xs'.getLastD x1 :=
            sorted_head_le_getLastD xs' x1 (hxs ▸ sortDedup_sorted _)
          have h0y : y1 ≤ ys'.getLastD y1 :=
            sorted_head_le_getLastD ys' y1 (hys ▸ sortDedup_sorted _)
          unfold bbW bbH
          rw [hbb]
          refine ⟨⟨?_, ?_⟩, ?_, ?_⟩ <;> simp only [] <;> linarith

/-- Each of the four quadrants has exactly half the bounding-box width and
half its height. -/
theorem quads_dims (g : Geom) :
    ((quadsOf g).1.maxx - (quadsOf g).1.minx = bbW g / 2
      ∧ (quadsOf g).1.maxy - (quadsOf g).1.miny = bbH g / 2)
    ∧ ((quadsOf g).2.1.maxx - (quadsOf g).2.1.minx = bbW g / 2
      ∧ (quadsOf g).2.1.maxy - (quadsOf g).2.1.miny = bbH g / 2)
    ∧ ((quadsOf g).2.2.1.maxx - (quadsOf g).2.2.1.minx = bbW g / 2
      ∧ (quadsOf g).2.2.1.maxy - (quadsOf g).2.2.1.miny = bbH g / 2)
    ∧ ((quadsOf g).2.2.2.maxx - (quadsOf g).2.2.2.minx = bbW g / 2
      ∧ (quadsOf g).2.2.2.maxy - (quadsOf g).2.2.2.miny = bbH g / 2) := by
  simp only [quadsOf, bbW, bbH]
  refine ⟨⟨?_, ?_⟩, ⟨?_, ?_⟩, ⟨?_, ?_⟩, ?_, ?_⟩ <;> ring

/-- The bounding box of a non-empty clipped quadrant has at most a quarter
of the parent's bounding-box area. -/
theorem clip_bb_quarter (g : Geom) (q : Rect)
    (hw : q.maxx - q.minx = bbW g / 2) (hh : q.maxy - q.miny = bbH g / 2)
    (hne : isEmptyG (clipG q g) = false) :
    bbW (clipG q g) * bbH (clipG q g) ≤ bbW g * bbH g / 4 := by
  obtain ⟨⟨hW0, hWle⟩, hH0, hHle⟩ := bb_clip_le q g hne
  rw [hw] at hWle
  rw [hh] at hHle
  calc bbW (clipG q g) * bbH (clipG q g)
      ≤ (bbW g / 2) * (bbH g / 2) :=
        mul_le_mul hWle hHle hH0 (le_trans hW0 hWle)
    _ = bbW g * bbH g / 4 := by ring

/-- A quadrant branch is total whenever the recursion is total on its
non-empty clipped quadrant. -/
theorem quadBranch_isSome (g : Geom) (maxA maxP : ℚ) (cells : List PopCell)
    (qrec : Geom → Option (List Geom)) (q : Rect)
    (hrec : isEmptyG (clipG q g) = false → (qrec (clipG q g)).isSome) :
    (quadBranch g maxA maxP cells qrec q).isSome := by
  simp only [quadBranch]
  by_cases hcont : (!containsG g q.centerR) = true
  · rw [if_pos hcont]
    simp
  · rw [if_neg hcont]
    cases hb : isEmptyG (clipG q g) with
    | true => simp [hb]
    | false =>
        rw [if_neg (by simp [hb])]
        split
        · exact hrec hb
        · simp

/-- One-step unfolding of `quadtree_split` at positive fuel. -/
theorem quadtree_split_succ (n : ℕ) (g : Geom) (maxA maxP : ℚ)
    (cells : List PopCell) :
    quadtree_split (n + 1) g maxA maxP cells =
      if areaG g / 1000000 ≤ maxA then some [g]
      else
        (quadBranch g maxA maxP cells
            (fun c => quadtree_split n c maxA maxP cells) (quadsOf g).1).bind fun l1 =>
        (quadBranch g maxA maxP cells
            (fun c => quadtree_split n c maxA maxP cells) (quadsOf g).2.1).bind fun l2 =>
        (quadBranch g maxA maxP cells
            (fun c => quadtree_split n c maxA maxP cells) (quadsOf g).2.2.1).bind fun l3 =>
        (quadBranch g maxA maxP cells
            (fun c => quadtree_split n c maxA maxP cells) (quadsOf g).2.2.2).bind fun l4 =>
        some (l1 ++ l2 ++ l3 ++ l4) := rfl

/-- Fuel sufficiency for `quadtree_split`: fuel `k + 1` suffices whenever
the bounding-box area is at most `max_area·10⁶·4ᵏ`, because every
recursive call at least quarters the bounding-box area and a geometry
whose area is within the cap returns immediately. -/
theorem quadtree_split_total (maxA maxP : ℚ) (cells : List PopCell) :
    ∀ (k : ℕ) (g : Geom), bbW g * bbH g ≤ maxA * 1000000 * 4 ^ k →
      (quadtree_split (k + 1) g maxA maxP cells).isSome := by
  intro k
  induction k with
  | zero =>
      intro g hg
      have harea : areaG g / 1000000 ≤ maxA := by
        rw [div_le_iff₀ (by norm_num : (0:ℚ) < 1000000)]
        calc areaG g ≤ bbW g * bbH g := areaG_le_bbox g
          _ ≤ maxA * 1000000 * 4 ^ 0 := hg
          _ = maxA * 1000000 := by ring
      simp [quadtree_split, harea]
  | succ k ih =>
      intro g hg
      by_cases harea : areaG g / 1000000 ≤ maxA
      · rw [quadtree_split_succ, if_pos harea]
        simp
      · rw [quadtree_split_succ, if_neg harea]
        have hq : ∀ q : Rect, q.maxx - q.minx = bbW g / 2 →
            q.maxy - q.miny = bbH g / 2 →
            (quadBranch g maxA maxP cells
              (fun c => quadtree_split (k + 1) c maxA maxP cells) q).isSome := by
          intro q hw hh
          refine quadBranch_isSome g maxA maxP cells _ q (fun hne => ?_)
          refine ih (clipG q g) ?_
          calc bbW (clipG q g) * bbH (clipG q g)
              ≤ bbW g * bbH g / 4 := clip_bb_quarter g q hw hh hne
            _ ≤ maxA * 1000000 * 4 ^ (k + 1) / 4 := by linarith
            _ = maxA * 1000000 * 4 ^ k := by ring
        obtain ⟨⟨hd1w, hd1h⟩, ⟨hd2w, hd2h⟩, ⟨hd3w, hd3h⟩, hd4w, hd4h⟩ := quads_dims g
        obtain ⟨l1, hl1⟩ := Option.isSome_iff_exists.mp (hq (quadsOf g).1 hd1w hd1h)
        obtain ⟨l2, hl2⟩ := Option.isSome_iff_exists.mp (hq (quadsOf g).2.1 hd2w hd2h)
        obtain ⟨l3, hl3⟩ := Option.isSome_iff_exists.mp (hq (quadsOf g).2.2.1 hd3w hd3h)
        obtain ⟨l4, hl4⟩ := Option.isSome_iff_exists.mp (hq (quadsOf g).2.2.2 hd4w hd4h)
        rw [hl1, hl2, hl3, hl4]
        simp [Option.bind]

/-- C4: for every input geometry, every pair of positive caps and every
population dataset, `quadtree_split` terminates with a finite list of leaf
geometries: some finite recursion fuel suffices.  (In exact arithmetic the
recursion needs no explicit floor when `max_area` is positive: each level
at least quarters the bounding box, and a population-triggered recursion
on a quadrant already within the area cap returns at the next call.) -/
theorem quadtree_split_terminates (g : Geom) (maxA maxP : ℚ)
    (cells : List PopCell) (hA : 0 < maxA) (_hP : 0 < maxP) :
    ∃ n, (quadtree_split n g maxA maxP cells).isSome := by
  obtain ⟨k, hk⟩ := pow_unbounded_of_one_lt
    (bbW g * bbH g / (maxA * 1000000)) (by norm_num : (1:ℚ) < 4)
  refine ⟨k + 1, quadtree_split_total maxA maxP cells k g ?_⟩
  have hA0 : (0:ℚ) < maxA * 1000000 := by positivity
  rw [div_lt_iff₀ hA0] at hk
  calc bbW g * bbH g ≤ 4 ^ k * (maxA * 1000000) := le_of_lt hk
    _ = maxA * 1000000 * 4 ^ k := by ring

/-- Witness for C4: a concrete geometry, caps and dataset for which the
quadtree terminates. -/
theorem quadtree_split_terminates_witness :
    ∃ n, (quadtree_split n [⟨0, 0, 5000, 5000⟩] 9 750
      [⟨[⟨0, 0, 5000, 5000⟩], 400⟩]).isSome :=
  quadtree_split_terminates [⟨0, 0, 5000, 5000⟩] 9 750
    [⟨[⟨0, 0, 5000, 5000⟩], 400⟩] (by norm_num) (by norm_num)
